import Mathlib

/-!
Verification of the kinfolk reactive-state engine (src/kinfolk.js) against its
specification.  The JavaScript source is shallowly embedded: JS values become
the inductive `Val` (objects and arrays carry an identity `Nat` so that
reference equality `===` is expressible), the per-provider `atomStates` map
becomes an association list `Store`, and the mutually recursive group
`getSnapshot` / `isDirty` / `evaluateSelectorFn` (kinfolk.js lines 70-239)
becomes a single fuel-indexed step function so that every definition stays
executable and kernel-reducible.  `notify`, `dispose`, `subscribe` and
`update` are embedded separately, mirroring their source line by line.
-/

namespace Kinfolk

/-- JS runtime values as used by the engine.  Objects and arrays carry a heap
identity `id` so that strict (reference) equality can be modelled; primitives
are compared by value, exactly like `===` / `Object.is`. -/
inductive Val where
  | undef
  | int (n : Int)
  | obj (id : Nat) (fields : List (String × Val))
  | arr (id : Nat) (elems : List Val)

/-- JS strict equality `===` (and `Object.is`; we do not model NaN / -0, the
only values on which the two differ).  Primitives compare by value, objects
and arrays by heap identity. -/
def jsEq : Val → Val → Bool
  | .undef, .undef => true
  | .int n, .int m => n == m
  | .obj i _, .obj j _ => i == j
  | .arr i _, .arr j _ => i == j
  | _, _ => false

/-- Embeds `isObject` from kinfolk.js lines 431-436: plain objects only, arrays are
excluded by the `Object.prototype.toString` check. -/
def isObject : Val → Bool
  | .obj _ _ => true
  | _ => false

/-- Field lookup `a[k]`: a missing key reads as `undefined`. -/
def lookupField (fs : List (String × Val)) (k : String) : Val :=
  (((fs.find? (fun kv => kv.1 == k)).map (fun kv => kv.2)).getD .undef)

/-- Embeds `k in a` for an object literal. -/
def hasField (fs : List (String × Val)) (k : String) : Bool :=
  fs.any (fun kv => kv.1 == k)

/-- Embeds `objEqual` from kinfolk.js lines 413-420: identical references, or two
plain objects whose keys and values match under `===`. -/
def objEqual : Val → Val → Bool
  | .obj i fa, .obj j fb =>
      i == j ||
        (fa.all (fun kv => jsEq kv.2 (lookupField fb kv.1)) &&
          fb.all (fun kv => hasField fa kv.1))
  | _, _ => false

/-- Embeds `arrEqual` from kinfolk.js lines 422-429. -/
def arrEqual : Val → Val → Bool
  | .arr i ea, .arr j eb =>
      i == j ||
        (ea.length == eb.length && (ea.zip eb).all (fun p => jsEq p.1 p.2))
  | _, _ => false

/-- Embeds `shallowEqual` from kinfolk.js lines 409-411, the default equality used by
the memoizer: `Object.is(a, b) || objEqual(a, b) || arrEqual(a, b)`. -/
def shallowEqual (a b : Val) : Bool :=
  jsEq a b || objEqual a b || arrEqual a b

/-- Atom references are modelled by their identity. -/
abbrev AtomId := Nat

/-- Selector bodies.  A selector function is embedded as a small expression:
it may return literals, use its call argument, read another atom/selector
through the tracked getter (`read`), and post-process values with pure
functions.  This is exactly the interface a kinfolk selector function has. -/
inductive SelExpr where
  | lit (v : Val)
  | argv
  | read (parent : AtomId) (argExpr : SelExpr)
  | app1 (f : Val → Val) (e : SelExpr)
  | app2 (f : Val → Val → Val) (e1 e2 : SelExpr)

/-- One entry of the `inputs` list recorded during a selector evaluation
(kinfolk.js line 90): `{ atomRef, arg, value }`. -/
structure Input where
  atomRef : AtomId
  arg : Val
  value : Val

/-- One memo entry `{ value, inputs }` (kinfolk.js line 210). -/
structure MemoEntry where
  value : Val
  inputs : List Input

/-- Runtime state of one atom/selector, kinfolk.js lines 148-168.  Cells keep
`selectorFn = none`; selectors additionally carry the equality policy, the
memo map and the persistence flag.  JS `Set`s become duplicate-free lists in
insertion order (iteration order matters for notification and untracking);
the memo `Map` becomes an extensional map keyed up to `jsEq`
(JS `Map` SameValueZero key comparison). -/
structure AtomState where
  state : Val := .undef
  selectorFn : Option SelExpr := none
  equal : Val → Val → Bool := fun _ _ => false
  memo : Val → Option MemoEntry := fun _ => none
  listeners : List Nat := []
  parents : List AtomId := []
  children : List AtomId := []
  persist : Bool := true

/-- Registry metadata (`atomMetas`), kinfolk.js lines 128-142. -/
inductive AtomMeta where
  | cellMeta (initialState : Val)
  | selMeta (selectorFn : SelExpr) (equalFn : Option (Val → Val → Bool)) (persist : Bool)

/-- The global registry `atomMetas` as a lookup function. -/
abbrev Metas := AtomId → Option AtomMeta

/-- The per-provider `atomStates` map, as an extensional map.  (The JS `Map`
also has an iteration order, but no engine operation other than the debug
dump depends on it.) -/
abbrev Store := AtomId → Option AtomState

/-- The empty store of a fresh provider. -/
def emptyStore : Store := fun _ => none

/-- Embeds `atomStates.get(ref)`. -/
def storeGet (s : Store) (id : AtomId) : Option AtomState :=
  s id

/-- Embeds `atomStates.set(ref, a)`. -/
def setStore (s : Store) (id : AtomId) (a : AtomState) : Store :=
  fun q => if q = id then some a else s q

/-- Embeds `atomStates.delete(ref)`. -/
def storeDelete (s : Store) (id : AtomId) : Store :=
  fun q => if q = id then none else s q

/-- Embeds `Set.add`: append if absent (JS sets keep insertion order, adding an
existing element is a no-op). -/
def insertSet (l : List Nat) (x : Nat) : List Nat :=
  if x ∈ l then l else l ++ [x]

/-- Embeds `memo.get(arg)` with JS `Map` SameValueZero key comparison (`jsEq`). -/
def memoGet (m : Val → Option MemoEntry) (arg : Val) : Option MemoEntry :=
  m arg

/-- Embeds `memo.set(arg, e)`: keys compare by SameValueZero, i.e. `jsEq`. -/
def memoSet (m : Val → Option MemoEntry) (arg : Val) (e : MemoEntry) :
    Val → Option MemoEntry :=
  fun q => if jsEq q arg then some e else m q

/-- Fresh runtime state for a cell (kinfolk.js lines 148-157). -/
def mkCellState (init : Val) : AtomState :=
  { state := init }

/-- Fresh runtime state for a selector (kinfolk.js lines 148-154 and 160-165):
`equal` defaults to `shallowEqual`, the memo map starts empty. -/
def mkSelState (body : SelExpr) (eqFn : Option (Val → Val → Bool)) (p : Bool) :
    AtomState :=
  { selectorFn := some body, equal := eqFn.getD shallowEqual, persist := p }

/-- Embeds `getAtom` (kinfolk.js lines 144-174): idempotent materialization of the
runtime state from the registry definition.  Note that for a selector no
value is computed here - the memo map starts empty. -/
def getAtom (metas : Metas) (s : Store) (id : AtomId) :
    Option (AtomState × Store) :=
  match storeGet s id with
  | some a => some (a, s)
  | none =>
    match metas id with
    | none => none
    | some (.cellMeta init) =>
        let a := mkCellState init
        some (a, setStore s id a)
    | some (.selMeta body eqFn p) =>
        let a := mkSelState body eqFn p
        some (a, setStore s id a)

/-- Embeds `isSelector` (kinfolk.js lines 448-450). -/
def isSelector (a : AtomState) : Bool :=
  a.selectorFn.isSome

/-- The untrack loop at the start of `evaluateSelectorFn` (kinfolk.js lines
74-77): for each previously recorded parent, delete this atom from the
parent's children set.  A missing parent entry would make the JS code throw,
hence `none`. -/
def untrackParents (s : Store) (selfId : AtomId) : List AtomId → Option Store
  | [] => some s
  | p :: ps =>
    match storeGet s p with
    | none => none
    | some pa =>
        untrackParents
          (setStore s p { pa with children := pa.children.filter (fun x => x != selfId) })
          selfId ps

/-- Requests of the mutually recursive evaluation group of kinfolk.js:
`snap` is `getSnapshot` (lines 198-214), `dirty` is `isDirty` (lines
222-239), `checkIns` is the input-checking loop inside `isDirty` (lines
231-236), `evalSel` is `evaluateSelectorFn` (lines 70-96) and `evalE` runs a
selector body under the tracking getter installed at lines 82-92. -/
inductive Req where
  | snap (id : AtomId) (arg : Val)
  | dirty (id : AtomId) (arg : Val)
  | checkIns (inputs : List Input)
  | evalSel (id : AtomId) (arg : Val)
  | evalE (selfId : AtomId) (selfArg : Val) (e : SelExpr)

/-- Answers of the evaluation group: a snapshot value, a dirtiness flag, or
an evaluated value together with the recorded inputs. -/
inductive Ans where
  | val (v : Val)
  | flag (b : Bool)
  | evaled (v : Val) (inputs : List Input)

/-- The mutually recursive group `getSnapshot` / `isDirty` /
`evaluateSelectorFn` of kinfolk.js, embedded as one function structurally
recursive on a fuel bound (`none` means a JS exception or fuel exhaustion).
The store is threaded explicitly: every in-place mutation of a live atom
object in JS becomes a re-fetch + `setStore` here. -/
def step (metas : Metas) : Nat → Req → Store → Option (Ans × Store)
  | 0, _, _ => none
  | fuel+1, req, s =>
    match req with
    | .snap id arg =>
      -- getSnapshot, kinfolk.js lines 198-214
      match getAtom metas s id with
      | none => none
      | some (a, s1) =>
        match a.selectorFn with
        | none => some (.val a.state, s1)
        | some _ =>
          match step metas fuel (.dirty id arg) s1 with
          | some (.flag true, s2) =>
            match step metas fuel (.evalSel id arg) s2 with
            | some (.evaled value inputs, s3) =>
              match storeGet s3 id with
              | none => none
              | some a3 =>
                let kept :=
                  match memoGet a3.memo arg with
                  | some entry => if a3.equal entry.value value then entry.value else value
                  | none => value
                let s4 := setStore s3 id { a3 with memo := memoSet a3.memo arg ⟨kept, inputs⟩ }
                some (.val kept, s4)
            | _ => none
          | some (.flag false, s2) =>
            match storeGet s2 id with
            | none => none
            | some a2 =>
              match memoGet a2.memo arg with
              | none => none
              | some entry => some (.val entry.value, s2)
          | _ => none
    | .dirty id arg =>
      -- isDirty, kinfolk.js lines 222-239
      match getAtom metas s id with
      | none => none
      | some (a, s1) =>
        if a.selectorFn.isSome then
          match memoGet a.memo arg with
          | none => some (.flag true, s1)
          | some entry => step metas fuel (.checkIns entry.inputs) s1
        else none
    | .checkIns [] => some (.flag false, s)
    | .checkIns (i :: rest) =>
      -- the loop of kinfolk.js lines 231-236
      match step metas fuel (.snap i.atomRef i.arg) s with
      | some (.val v, s1) =>
        if jsEq v i.value then step metas fuel (.checkIns rest) s1
        else some (.flag true, s1)
      | _ => none
    | .evalSel id arg =>
      -- evaluateSelectorFn, kinfolk.js lines 70-96
      match storeGet s id with
      | none => none
      | some a =>
        match a.selectorFn with
        | none => none
        | some body =>
          match untrackParents s id a.parents with
          | none => none
          | some s1 =>
            match storeGet s1 id with
            | none => none
            | some a1 =>
              -- atom.parents.clear(), line 78
              let s2 := setStore s1 id { a1 with parents := [] }
              step metas fuel (.evalE id arg body) s2
    | .evalE selfId selfArg e =>
      match e with
      | .lit v => some (.evaled v [], s)
      | .argv => some (.evaled selfArg [], s)
      | .app1 f e1 =>
        match step metas fuel (.evalE selfId selfArg e1) s with
        | some (.evaled v ins, s1) => some (.evaled (f v) ins, s1)
        | _ => none
      | .app2 f e1 e2 =>
        match step metas fuel (.evalE selfId selfArg e1) s with
        | some (.evaled v1 ins1, s1) =>
          match step metas fuel (.evalE selfId selfArg e2) s1 with
          | some (.evaled v2 ins2, s2) => some (.evaled (f v1 v2) (ins1 ++ ins2), s2)
          | _ => none
        | _ => none
      | .read p argExpr =>
        -- the tracking getter, kinfolk.js lines 82-92
        match step metas fuel (.evalE selfId selfArg argExpr) s with
        | some (.evaled argV insA, s1) =>
          match getAtom metas s1 p with
          | none => none
          | some (_, s2) =>
            match storeGet s2 selfId with
            | none => none
            | some selfA =>
              -- atom.parents.add(parentAtomRef), line 85
              let s3 := setStore s2 selfId { selfA with parents := insertSet selfA.parents p }
              match storeGet s3 p with
              | none => none
              | some pa =>
                -- parentAtom.children.add(atomRef), line 86
                let s4 := setStore s3 p { pa with children := insertSet pa.children selfId }
                match step metas fuel (.snap p argV) s4 with
                | some (.val v, s5) => some (.evaled v (insA ++ [⟨p, argV, v⟩]), s5)
                | _ => none
        | _ => none

/-- Embeds `getSnapshot(atomStates, atomRef, arg)` (kinfolk.js lines 198-214). -/
def getSnapshot (metas : Metas) (fuel : Nat) (s : Store) (id : AtomId) (arg : Val) :
    Option (Val × Store) :=
  match step metas fuel (.snap id arg) s with
  | some (.val v, s1) => some (v, s1)
  | _ => none

/-- Embeds `isDirty(atomStates, atomRef, arg)` (kinfolk.js lines 222-239). -/
def isDirty (metas : Metas) (fuel : Nat) (s : Store) (id : AtomId) (arg : Val) :
    Option (Bool × Store) :=
  match step metas fuel (.dirty id arg) s with
  | some (.flag b, s1) => some (b, s1)
  | _ => none

/-- The input-checking loop of `isDirty` (kinfolk.js lines 231-236). -/
def checkInputs (metas : Metas) (fuel : Nat) (s : Store) (ins : List Input) :
    Option (Bool × Store) :=
  match step metas fuel (.checkIns ins) s with
  | some (.flag b, s1) => some (b, s1)
  | _ => none

/-- Embeds `evaluateSelectorFn(atomStates, atomRef, arg)` (kinfolk.js lines 70-96):
returns the raw value and the recorded input list. -/
def evaluateSelectorFn (metas : Metas) (fuel : Nat) (s : Store) (id : AtomId) (arg : Val) :
    Option (Val × List Input × Store) :=
  match step metas fuel (.evalSel id arg) s with
  | some (.evaled v ins, s1) => some (v, ins, s1)
  | _ => none

/-- Embeds `notify` (kinfolk.js lines 244-248) over a pending list of atoms, in
depth-first source order: fire the atom's listeners, then recursively notify
every child.  Returns the sequence of listener callbacks fired.  There is no
visited set in the source, so an atom reachable twice is notified twice. -/
def notifyList (s : Store) : Nat → List AtomId → Option (List Nat)
  | _, [] => some []
  | 0, _ :: _ => none
  | fuel+1, id :: rest =>
    (storeGet s id).bind fun a =>
      (notifyList s fuel a.children).bind fun t1 =>
        (notifyList s fuel rest).map fun t2 => a.listeners ++ t1 ++ t2

/-- Embeds `notify(atomStates, atomRef)` (kinfolk.js lines 244-248). -/
def notify (s : Store) (fuel : Nat) (id : AtomId) : Option (List Nat) :=
  notifyList s fuel [id]

/-- Pending work of the `dispose` recursion: `disp` is a recursive
`dispose(atomStates, ref)` call, `unlink` is the
`parentAtom.children.delete(atomRef)` performed just before it
(kinfolk.js lines 190-194). -/
inductive DTask where
  | disp (id : AtomId)
  | unlink (parent : AtomId) (child : AtomId)

/-- Embeds `dispose` (kinfolk.js lines 180-196) as a worklist ordered exactly like
the source's depth-first recursion: a non-persistent selector with no
listeners and no children is deleted from the store, then each former parent
is unlinked and recursively disposed in order. -/
def disposeGo : Nat → Store → List DTask → Option Store
  | _, s, [] => some s
  | 0, _, _ :: _ => none
  | fuel+1, s, .unlink p c :: rest =>
    match storeGet s p with
    | none => none
    | some pa =>
        disposeGo fuel
          (setStore s p { pa with children := pa.children.filter (fun x => x != c) }) rest
  | fuel+1, s, .disp id :: rest =>
    match storeGet s id with
    | none => none
    | some a =>
      if a.selectorFn.isSome && a.listeners.isEmpty && a.children.isEmpty then
        let s1 := if a.persist then s else storeDelete s id
        disposeGo fuel s1 ((a.parents.flatMap fun p => [.unlink p id, .disp p]) ++ rest)
      else disposeGo fuel s rest

/-- Embeds `dispose(atomStates, atomRef)` (kinfolk.js lines 180-196). -/
def dispose (fuel : Nat) (s : Store) (id : AtomId) : Option Store :=
  disposeGo fuel s [.disp id]

/-- Embeds `subscribe` (kinfolk.js lines 253-255): materialize the atom and add the
listener. -/
def subscribe (metas : Metas) (s : Store) (id : AtomId) (l : Nat) : Option Store :=
  match getAtom metas s id with
  | none => none
  | some (a, s1) => some (setStore s1 id { a with listeners := insertSet a.listeners l })

/-- The `unsubscribe` closure returned by `subscribe` (kinfolk.js lines
256-259): remove the listener, then run `dispose`. -/
def unsubscribe (fuel : Nat) (s : Store) (id : AtomId) (l : Nat) : Option Store :=
  match storeGet s id with
  | none => none
  | some a =>
      dispose fuel (setStore s id { a with listeners := a.listeners.filter (fun x => x != l) }) id

/-- Embeds `update` (kinfolk.js lines 302-310).  On success returns the new store
and the trace of listener callbacks fired by `notify`; on the
`assert(!isSelector(atom))` failure returns `.error` carrying the message and
the store at the moment of the throw. -/
def update (metas : Metas) (fuel : Nat) (s : Store) (id : AtomId) (up : Val → Val) :
    Except (String × Store) (Store × List Nat) :=
  match getAtom metas s id with
  | none => .error ("atom meta not found", s)
  | some (a, s1) =>
    if a.selectorFn.isSome then .error ("Only atoms can be updated", s1)
    else
      let a2 := { a with state := up a.state }
      let s2 := setStore s1 id a2
      if jsEq a.state a2.state then .ok (s2, [])
      else
        match notify s2 fuel id with
        | some tr => .ok (s2, tr)
        | none => .error ("fuel exhausted", s2)

/-! ### Basic lemmas about the embedded primitives -/

theorem jsEq_refl (v : Val) : jsEq v v = true := by
  cases v <;> simp [jsEq]

theorem storeGet_setStore_self (s : Store) (id : AtomId) (a : AtomState) :
    storeGet (setStore s id a) id = some a := by
  simp [storeGet, setStore]

theorem storeGet_setStore_other (s : Store) (id q : AtomId) (a : AtomState)
    (h : q ≠ id) : storeGet (setStore s id a) q = storeGet s q := by
  simp [storeGet, setStore, h]

theorem storeGet_storeDelete_self (s : Store) (id : AtomId) :
    storeGet (storeDelete s id) id = none := by
  simp [storeGet, storeDelete]

theorem storeGet_storeDelete_other (s : Store) (id q : AtomId) (h : q ≠ id) :
    storeGet (storeDelete s id) q = storeGet s q := by
  simp [storeGet, storeDelete, h]

/-- Calling `getAtom` on an already-materialized atom is the identity (first half of
idempotence). -/
theorem getAtom_of_get {metas : Metas} {s : Store} {id : AtomId} {a : AtomState}
    (h : storeGet s id = some a) : getAtom metas s id = some (a, s) := by
  simp [getAtom, h]

/-! ### Inversion lemmas between the wrappers and `step` -/

theorem getSnapshot_step {metas : Metas} {f : Nat} {s : Store} {id : AtomId}
    {arg v : Val} {s1 : Store} (h : getSnapshot metas f s id arg = some (v, s1)) :
    step metas f (.snap id arg) s = some (.val v, s1) := by
  unfold getSnapshot at h
  split at h <;> simp_all

theorem step_getSnapshot {metas : Metas} {f : Nat} {s : Store} {id : AtomId}
    {arg v : Val} {s1 : Store} (h : step metas f (.snap id arg) s = some (.val v, s1)) :
    getSnapshot metas f s id arg = some (v, s1) := by
  unfold getSnapshot
  rw [h]

theorem isDirty_step {metas : Metas} {f : Nat} {s : Store} {id : AtomId}
    {arg : Val} {b : Bool} {s1 : Store} (h : isDirty metas f s id arg = some (b, s1)) :
    step metas f (.dirty id arg) s = some (.flag b, s1) := by
  unfold isDirty at h
  split at h <;> simp_all

theorem step_isDirty {metas : Metas} {f : Nat} {s : Store} {id : AtomId}
    {arg : Val} {b : Bool} {s1 : Store} (h : step metas f (.dirty id arg) s = some (.flag b, s1)) :
    isDirty metas f s id arg = some (b, s1) := by
  unfold isDirty
  rw [h]

theorem checkInputs_step {metas : Metas} {f : Nat} {s : Store} {ins : List Input}
    {b : Bool} {s1 : Store} (h : checkInputs metas f s ins = some (b, s1)) :
    step metas f (.checkIns ins) s = some (.flag b, s1) := by
  unfold checkInputs at h
  split at h <;> simp_all

theorem step_checkInputs {metas : Metas} {f : Nat} {s : Store} {ins : List Input}
    {b : Bool} {s1 : Store} (h : step metas f (.checkIns ins) s = some (.flag b, s1)) :
    checkInputs metas f s ins = some (b, s1) := by
  unfold checkInputs
  rw [h]

theorem evaluateSelectorFn_step {metas : Metas} {f : Nat} {s : Store} {id : AtomId}
    {arg v : Val} {ins : List Input} {s1 : Store}
    (h : evaluateSelectorFn metas f s id arg = some (v, ins, s1)) :
    step metas f (.evalSel id arg) s = some (.evaled v ins, s1) := by
  unfold evaluateSelectorFn at h
  split at h <;> simp_all

theorem step_evaluateSelectorFn {metas : Metas} {f : Nat} {s : Store} {id : AtomId}
    {arg v : Val} {ins : List Input} {s1 : Store}
    (h : step metas f (.evalSel id arg) s = some (.evaled v ins, s1)) :
    evaluateSelectorFn metas f s id arg = some (v, ins, s1) := by
  unfold evaluateSelectorFn
  rw [h]

/-! ### Declarative staleness, following the spec's wording: a recorded input
list is stale when some recorded input's current value - obtained by
recursively reading that input (`getSnapshot`), reads being threaded through
the store left to right - differs by identity (`jsEq`) from the value
captured at recording time. -/

inductive InputsStale (metas : Metas) : Nat → Store → List Input → Prop where
  | head (f : Nat) (s : Store) (i : Input) (rest : List Input) (v : Val) (s1 : Store) :
      getSnapshot metas f s i.atomRef i.arg = some (v, s1) →
      jsEq v i.value = false →
      InputsStale metas (f+1) s (i :: rest)
  | tail (f : Nat) (s : Store) (i : Input) (rest : List Input) (v : Val) (s1 : Store) :
      getSnapshot metas f s i.atomRef i.arg = some (v, s1) →
      jsEq v i.value = true →
      InputsStale metas f s1 rest →
      InputsStale metas (f+1) s (i :: rest)

theorem not_inputsStale_nil (metas : Metas) (f : Nat) (s : Store) :
    ¬ InputsStale metas f s [] := by
  intro h
  cases h

/-- The input-checking loop of `isDirty` returns `true` exactly when the
recorded input list is stale in the declarative sense. -/
theorem checkInputs_true_iff (metas : Metas) :
    ∀ (f : Nat) (s : Store) (ins : List Input) (b : Bool) (s1 : Store),
      checkInputs metas f s ins = some (b, s1) →
      (b = true ↔ InputsStale metas f s ins) := by
  intro f
  induction f with
  | zero =>
    intro s ins b s1 h
    have h2 := checkInputs_step h
    simp [step] at h2
  | succ f ih =>
    intro s ins b s1 h
    have h2 := checkInputs_step h
    cases ins with
    | nil =>
      simp [step] at h2
      constructor
      · intro hb
        rw [h2.1] at hb
        cases hb
      · intro hst
        exact absurd hst (not_inputsStale_nil _ _ _)
    | cons i rest =>
      simp only [step] at h2
      cases hsnap : step metas f (.snap i.atomRef i.arg) s with
      | none => rw [hsnap] at h2; cases h2
      | some pr =>
        obtain ⟨ans, sa⟩ := pr
        rw [hsnap] at h2
        cases ans with
        | flag c => cases h2
        | evaled v ins2 => cases h2
        | val v =>
          have hgs : getSnapshot metas f s i.atomRef i.arg = some (v, sa) :=
            step_getSnapshot hsnap
          have h3 : (if jsEq v i.value = true then step metas f (.checkIns rest) sa
              else some (.flag true, sa)) = some (.flag b, s1) := h2
          by_cases hje : jsEq v i.value = true
          · rw [if_pos hje] at h3
            have hrec : checkInputs metas f sa rest = some (b, s1) :=
              step_checkInputs h3
            have hiff := ih sa rest b s1 hrec
            constructor
            · intro hb
              exact InputsStale.tail f s i rest v sa hgs hje (hiff.mp hb)
            · intro hst
              cases hst with
              | head _ _ _ _ v2 s3 hgs2 hne =>
                have hd : v = v2 ∧ sa = s3 := by
                  have := hgs.symm.trans hgs2
                  simpa using this
                rw [← hd.1] at hne
                rw [hje] at hne
                cases hne
              | tail _ _ _ _ v2 s3 hgs2 _ hst2 =>
                have hd : v = v2 ∧ sa = s3 := by
                  have := hgs.symm.trans hgs2
                  simpa using this
                rw [← hd.2] at hst2
                exact hiff.mpr hst2
          · rw [if_neg hje] at h3
            have hb : b = true ∧ sa = s1 := by
              cases h3
              exact ⟨rfl, rfl⟩
            constructor
            · intro _
              exact InputsStale.head f s i rest v sa hgs (Bool.not_eq_true _ ▸ hje)
            · intro _
              exact hb.1

/-! ### Lemmas about `dispose`: the recursion only deletes runtime entries
and removes child edges, so absence of an entry, absence of a child edge,
and the full state of a protected (persistent, childless) selector are all
preserved. -/

/-- Filtering an already-empty children set is the identity on the state. -/
theorem filter_children_eta (a : AtomState) (hch : a.children = [])
    (g : AtomId → Bool) : { a with children := a.children.filter g } = a := by
  cases a
  simp_all

theorem disposeGo_absent {id : AtomId} :
    ∀ (f : Nat) (ts : List DTask) (s s1 : Store),
      disposeGo f s ts = some s1 → storeGet s id = none → storeGet s1 id = none := by
  intro f
  induction f with
  | zero =>
    intro ts s s1 h hn
    cases ts with
    | nil =>
      simp [disposeGo] at h
      rw [← h]
      exact hn
    | cons t rest => simp [disposeGo] at h
  | succ f ih =>
    intro ts s s1 h hn
    cases ts with
    | nil =>
      simp [disposeGo] at h
      rw [← h]
      exact hn
    | cons t rest =>
      cases t with
      | unlink p c =>
        simp only [disposeGo] at h
        cases hp : storeGet s p with
        | none => rw [hp] at h; cases h
        | some pa =>
          rw [hp] at h
          have hpid : p ≠ id := by
            intro he
            rw [he, hn] at hp
            cases hp
          refine ih rest _ s1 h ?_
          rw [storeGet_setStore_other _ _ _ _ (Ne.symm hpid)]
          exact hn
      | disp i =>
        simp only [disposeGo] at h
        cases hi : storeGet s i with
        | none => rw [hi] at h; cases h
        | some a =>
          rw [hi] at h
          have h3 : (if (a.selectorFn.isSome && a.listeners.isEmpty && a.children.isEmpty) = true then
              disposeGo f (if a.persist = true then s else storeDelete s i)
                ((a.parents.flatMap fun p => [DTask.unlink p i, DTask.disp p]) ++ rest)
            else disposeGo f s rest) = some s1 := h
          by_cases helig : (a.selectorFn.isSome && a.listeners.isEmpty && a.children.isEmpty) = true
          · rw [if_pos helig] at h3
            refine ih _ _ s1 h3 ?_
            by_cases hper : a.persist = true
            · simpa [hper] using hn
            · have hpf : a.persist = false := by
                cases hval : a.persist
                · rfl
                · exact absurd hval hper
              simp only [hpf]
              simp only [Bool.false_eq_true, if_false]
              by_cases hiid : id = i
              · rw [hiid]
                exact storeGet_storeDelete_self s i
              · rw [storeGet_storeDelete_other _ _ _ hiid]
                exact hn
          · rw [if_neg helig] at h3
            exact ih rest s s1 h3 hn

/-- The function `dispose` never adds an element to any `children` set: if `c` is not a
child of `p` before a dispose run, it is not after. -/
theorem disposeGo_keeps_notMem {p c : AtomId} :
    ∀ (f : Nat) (ts : List DTask) (s s1 : Store),
      disposeGo f s ts = some s1 →
      (∀ pa, storeGet s p = some pa → c ∉ pa.children) →
      (∀ pa1, storeGet s1 p = some pa1 → c ∉ pa1.children) := by
  intro f
  induction f with
  | zero =>
    intro ts s s1 h hnm
    cases ts with
    | nil =>
      simp [disposeGo] at h
      rw [← h]
      exact hnm
    | cons t rest => simp [disposeGo] at h
  | succ f ih =>
    intro ts s s1 h hnm
    cases ts with
    | nil =>
      simp [disposeGo] at h
      rw [← h]
      exact hnm
    | cons t rest =>
      cases t with
      | unlink q d =>
        simp only [disposeGo] at h
        cases hq : storeGet s q with
        | none => rw [hq] at h; cases h
        | some qa =>
          rw [hq] at h
          refine ih rest _ s1 h ?_
          intro pa hpa
          by_cases hpq : p = q
          · rw [hpq, storeGet_setStore_self] at hpa
            cases hpa
            intro hmem
            have := List.of_mem_filter hmem
            have hmem2 := List.mem_of_mem_filter hmem
            have : c ∈ qa.children := hmem2
            exact hnm qa (hpq ▸ hq) this
          · rw [storeGet_setStore_other _ _ _ _ hpq] at hpa
            exact hnm pa hpa
      | disp i =>
        simp only [disposeGo] at h
        cases hi : storeGet s i with
        | none => rw [hi] at h; cases h
        | some a =>
          rw [hi] at h
          have h3 : (if (a.selectorFn.isSome && a.listeners.isEmpty && a.children.isEmpty) = true then
              disposeGo f (if a.persist = true then s else storeDelete s i)
                ((a.parents.flatMap fun p => [DTask.unlink p i, DTask.disp p]) ++ rest)
            else disposeGo f s rest) = some s1 := h
          by_cases helig : (a.selectorFn.isSome && a.listeners.isEmpty && a.children.isEmpty) = true
          · rw [if_pos helig] at h3
            refine ih _ _ s1 h3 ?_
            intro pa hpa
            by_cases hper : a.persist = true
            · rw [hper] at hpa
              simp only [if_true] at hpa
              exact hnm pa hpa
            · have hpf : a.persist = false := by
                cases hval : a.persist
                · rfl
                · exact absurd hval hper
              rw [hpf] at hpa
              simp only [Bool.false_eq_true, if_false] at hpa
              by_cases hpi : p = i
              · rw [hpi, storeGet_storeDelete_self] at hpa
                cases hpa
              · rw [storeGet_storeDelete_other _ _ _ hpi] at hpa
                exact hnm pa hpa
          · rw [if_neg helig] at h3
            exact ih rest s s1 h3 hnm

/-- Every `unlink p c` task in a successful dispose worklist run is executed:
afterwards `c` is no longer a child of `p`. -/
theorem disposeGo_unlink_done {p c : AtomId} :
    ∀ (f : Nat) (ts : List DTask) (s s1 : Store),
      disposeGo f s ts = some s1 →
      DTask.unlink p c ∈ ts →
      (∀ pa1, storeGet s1 p = some pa1 → c ∉ pa1.children) := by
  intro f
  induction f with
  | zero =>
    intro ts s s1 h hmem
    cases ts with
    | nil => cases hmem
    | cons t rest => simp [disposeGo] at h
  | succ f ih =>
    intro ts s s1 h hmem
    cases ts with
    | nil => cases hmem
    | cons t rest =>
      cases t with
      | unlink q d =>
        simp only [disposeGo] at h
        cases hq : storeGet s q with
        | none => rw [hq] at h; cases h
        | some qa =>
          rw [hq] at h
          rcases List.mem_cons.mp hmem with hhead | htail
          · have hq2 : q = p ∧ d = c := by
              cases hhead
              exact ⟨rfl, rfl⟩
            obtain ⟨rfl, rfl⟩ := hq2
            refine disposeGo_keeps_notMem f rest _ s1 h ?_
            intro pa hpa
            rw [storeGet_setStore_self] at hpa
            cases hpa
            intro hmem2
            have := List.of_mem_filter hmem2
            simp at this
          · exact ih rest _ s1 h htail
      | disp i =>
        simp only [disposeGo] at h
        cases hi : storeGet s i with
        | none => rw [hi] at h; cases h
        | some a =>
          rw [hi] at h
          rcases List.mem_cons.mp hmem with hhead | htail
          · cases hhead
          · have h3 : (if (a.selectorFn.isSome && a.listeners.isEmpty && a.children.isEmpty) = true then
                disposeGo f (if a.persist = true then s else storeDelete s i)
                  ((a.parents.flatMap fun q => [DTask.unlink q i, DTask.disp q]) ++ rest)
              else disposeGo f s rest) = some s1 := h
            by_cases helig : (a.selectorFn.isSome && a.listeners.isEmpty && a.children.isEmpty) = true
            · rw [if_pos helig] at h3
              refine ih _ _ s1 h3 ?_
              exact List.mem_append_right _ htail
            · rw [if_neg helig] at h3
              exact ih rest s s1 h3 htail

/-- A persistent, childless selector entry survives any dispose run entirely
unchanged: the persistence flag protects the runtime entry (value, memo,
parents, listeners), and its empty children set cannot be shrunk further. -/
theorem disposeGo_retains {id : AtomId} {a : AtomState}
    (hper : a.persist = true) (hch : a.children = []) :
    ∀ (f : Nat) (ts : List DTask) (s s1 : Store),
      disposeGo f s ts = some s1 →
      storeGet s id = some a → storeGet s1 id = some a := by
  intro f
  induction f with
  | zero =>
    intro ts s s1 h hg
    cases ts with
    | nil =>
      simp [disposeGo] at h
      rw [← h]
      exact hg
    | cons t rest => simp [disposeGo] at h
  | succ f ih =>
    intro ts s s1 h hg
    cases ts with
    | nil =>
      simp [disposeGo] at h
      rw [← h]
      exact hg
    | cons t rest =>
      cases t with
      | unlink q d =>
        simp only [disposeGo] at h
        cases hq : storeGet s q with
        | none => rw [hq] at h; cases h
        | some qa =>
          rw [hq] at h
          refine ih rest _ s1 h ?_
          by_cases hqid : q = id
          · rw [hqid] at hq
            rw [hq] at hg
            cases hg
            rw [hqid, storeGet_setStore_self]
            rw [filter_children_eta _ hch]
          · rw [storeGet_setStore_other _ _ _ _ (Ne.symm hqid)]
            exact hg
      | disp i =>
        simp only [disposeGo] at h
        cases hi : storeGet s i with
        | none => rw [hi] at h; cases h
        | some b =>
          rw [hi] at h
          have h3 : (if (b.selectorFn.isSome && b.listeners.isEmpty && b.children.isEmpty) = true then
              disposeGo f (if b.persist = true then s else storeDelete s i)
                ((b.parents.flatMap fun p => [DTask.unlink p i, DTask.disp p]) ++ rest)
            else disposeGo f s rest) = some s1 := h
          by_cases helig : (b.selectorFn.isSome && b.listeners.isEmpty && b.children.isEmpty) = true
          · rw [if_pos helig] at h3
            refine ih _ _ s1 h3 ?_
            by_cases hper2 : b.persist = true
            · simpa [hper2] using hg
            · have hpf : b.persist = false := by
                cases hval : b.persist
                · rfl
                · exact absurd hval hper2
              rw [hpf]
              simp only [Bool.false_eq_true, if_false]
              by_cases hiid : i = id
              · rw [hiid] at hi
                rw [hi] at hg
                cases hg
                rw [hper] at hpf
                cases hpf
              · rw [storeGet_storeDelete_other _ _ _ (fun he => hiid he.symm)]
                exact hg
          · rw [if_neg helig] at h3
            exact ih rest s s1 h3 hg

/-! ### Lemmas about the untrack phase of `evaluateSelectorFn` -/

/-- The untrack loop never adds a child edge: a node that does not list
`selfId` as a child keeps not listing it. -/
theorem untrackParents_keeps_notMem {selfId q : AtomId} :
    ∀ (ps : List AtomId) (s s1 : Store),
      untrackParents s selfId ps = some s1 →
      (∀ qa, storeGet s q = some qa → selfId ∉ qa.children) →
      (∀ qa1, storeGet s1 q = some qa1 → selfId ∉ qa1.children) := by
  intro ps
  induction ps with
  | nil =>
    intro s s1 h hnm
    simp [untrackParents] at h
    rw [← h]
    exact hnm
  | cons p ps ih =>
    intro s s1 h hnm
    simp only [untrackParents] at h
    cases hp : storeGet s p with
    | none => rw [hp] at h; cases h
    | some pa =>
      rw [hp] at h
      refine ih _ s1 h ?_
      intro qa hqa
      by_cases hqp : q = p
      · rw [hqp, storeGet_setStore_self] at hqa
        cases hqa
        intro hmem
        have := List.of_mem_filter hmem
        simp at this
      · rw [storeGet_setStore_other _ _ _ _ hqp] at hqa
        exact hnm qa hqa

/-- After the untrack loop, `selfId` has been removed outright from the
children set of every listed parent (not decremented: the edge is gone). -/
theorem untrackParents_done {selfId : AtomId} :
    ∀ (ps : List AtomId) (s s1 : Store),
      untrackParents s selfId ps = some s1 →
      ∀ p, p ∈ ps → ∀ pa1, storeGet s1 p = some pa1 → selfId ∉ pa1.children := by
  intro ps
  induction ps with
  | nil =>
    intro s s1 h p hp
    cases hp
  | cons p0 ps ih =>
    intro s s1 h p hp
    simp only [untrackParents] at h
    cases hp0 : storeGet s p0 with
    | none => rw [hp0] at h; cases h
    | some pa =>
      rw [hp0] at h
      rcases List.mem_cons.mp hp with hhead | htail
      · subst hhead
        refine untrackParents_keeps_notMem ps _ s1 h ?_
        intro qa hqa
        rw [storeGet_setStore_self] at hqa
        cases hqa
        intro hmem
        have := List.of_mem_filter hmem
        simp at this
      · exact ih _ s1 h p htail

/-! ### Lemmas about `insertSet` (JS `Set.add`) -/

theorem insertSet_of_mem {l : List Nat} {x : Nat} (h : x ∈ l) :
    insertSet l x = l := by
  simp [insertSet, h]

theorem insertSet_of_not_mem {l : List Nat} {x : Nat} (h : x ∉ l) :
    insertSet l x = l ++ [x] := by
  simp [insertSet, h]

/-! ### Lemmas about `shallowEqual` -/

theorem lookupField_self :
    ∀ (fs : List (String × Val)) (k : String) (v : Val),
      (fs.map Prod.fst).Nodup → (k, v) ∈ fs → lookupField fs k = v := by
  intro fs
  induction fs with
  | nil =>
    intro k v _ hmem
    cases hmem
  | cons hd tl ih =>
    intro k v hnd hmem
    rcases List.mem_cons.mp hmem with hhead | htail
    · subst hhead
      simp [lookupField]
    · have hne : hd.1 ≠ k := by
        intro he
        have hk : k ∈ tl.map Prod.fst :=
          List.mem_map.mpr ⟨(k, v), htail, rfl⟩
        rw [List.map_cons] at hnd
        exact (List.nodup_cons.mp hnd).1 (he ▸ hk)
      have hnd2 : (tl.map Prod.fst).Nodup := by
        rw [List.map_cons] at hnd
        exact (List.nodup_cons.mp hnd).2
      simp only [lookupField, List.find?]
      have : (hd.1 == k) = false := by
        simp [hne]
      rw [this]
      exact ih k v hnd2 htail

/-- Two objects with distinct identities but jsEq-identical field lists are
shallow-equal: `shallowEqual` accepts distinct-but-shallowly-equal objects. -/
theorem shallowEqual_same_fields (i j : Nat) (fs : List (String × Val))
    (hnd : (fs.map Prod.fst).Nodup) :
    shallowEqual (.obj i fs) (.obj j fs) = true := by
  have hobj : objEqual (.obj i fs) (.obj j fs) = true := by
    simp only [objEqual]
    refine Bool.or_eq_true_iff.mpr (Or.inr ?_)
    refine Bool.and_eq_true_iff.mpr ⟨?_, ?_⟩
    · rw [List.all_eq_true]
      intro kv hkv
      have : lookupField fs kv.1 = kv.2 := lookupField_self fs kv.1 kv.2 hnd hkv
      rw [this]
      exact jsEq_refl kv.2
    · rw [List.all_eq_true]
      intro kv hkv
      simp only [hasField]
      rw [List.any_eq_true]
      exact ⟨kv, hkv, by simp⟩
  simp [shallowEqual, hobj]

/-! ### Concrete scenarios used by counterexamples and witnesses -/

/-- Embeds `v => v + 1` on JS numbers. -/
def add1 : Val → Val
  | .int n => .int (n + 1)
  | v => v

/-- Embeds `v => v + 2` on JS numbers. -/
def add2 : Val → Val
  | .int n => .int (n + 2)
  | v => v

/-- JS `+` on numbers. -/
def addV : Val → Val → Val
  | .int n, .int m => .int (n + m)
  | _, _ => (.undef)

/-- Embeds `n => ({ x: 0 })`, allocating a fresh object whose identity depends on
the input: successive computations over changed inputs return
distinct-but-shallowly-equal objects. -/
def mkObjOf : Val → Val
  | .int n => .obj (100 + n.toNat) [("x", .int 0)]
  | _ => (.undef)

/-- Diamond registry: cell `A = atom(0)` (id 0), selectors
`B = selector(() => A() + 1)` (id 1), `C = selector(() => A() + 2)` (id 2)
and `D = selector(() => B() + C())` (id 3). -/
def cmD : Metas := fun id =>
  if id = 0 then some (.cellMeta (.int 0))
  else if id = 1 then some (.selMeta (.app1 add1 (.read 0 (.lit .undef))) none true)
  else if id = 2 then some (.selMeta (.app1 add2 (.read 0 (.lit .undef))) none true)
  else if id = 3 then
    some (.selMeta (.app2 addV (.read 1 (.lit .undef)) (.read 2 (.lit .undef))) none true)
  else none

/-- The diamond store after subscribing listener `100` to `D` and pulling
`D`'s first snapshot (which builds all the edges). -/
def diamondStore : Option Store :=
  match subscribe cmD emptyStore 3 100 with
  | none => none
  | some s1 =>
    match getSnapshot cmD 20 s1 3 .undef with
    | none => none
    | some (_, s2) => some s2

/-- The listener trace produced by a single write `A := 5` in the diamond. -/
def diamondTrace : Option (List Nat) :=
  match diamondStore with
  | none => none
  | some s2 =>
    match update cmD 20 s2 0 (fun _ => .int 5) with
    | .ok (_, tr) => some tr
    | .error _ => none

/-- Registry for the default-equality scenario: cell `counter = atom(1)`
(id 0) and selector `obj = selector(() => mkObjOf(counter()))` (id 1)
created without an explicit `equal` option. -/
def cm3 : Metas := fun id =>
  if id = 0 then some (.cellMeta (.int 1))
  else if id = 1 then some (.selMeta (.app1 mkObjOf (.read 0 (.lit .undef))) none true)
  else none

/-- Pull the object selector, write `counter := 2` (so a recompute yields the
distinct-but-shallowly-equal object 102), and pull again. -/
def c3result : Option Val :=
  match getSnapshot cm3 20 emptyStore 1 .undef with
  | none => none
  | some (_, s1) =>
    match update cm3 20 s1 0 (fun _ => .int 2) with
    | .error _ => none
    | .ok (s2, _) =>
      match getSnapshot cm3 20 s2 1 .undef with
      | none => none
      | some (v, _) => some v

/-- Registry for the double-read scenario: cell `counter = atom(3)` (id 0)
and selector `twice = selector(() => counter() + counter())` (id 1), which
reads the same parent via two argument instances. -/
def cm7 : Metas := fun id =>
  if id = 0 then some (.cellMeta (.int 3))
  else if id = 1 then
    some (.selMeta (.app2 addV (.read 0 (.lit .undef)) (.read 0 (.lit .undef))) none true)
  else none

/-- The children set of the doubly-read parent after the selector computes. -/
def c7children : Option (List AtomId) :=
  match getSnapshot cm7 20 emptyStore 1 .undef with
  | none => none
  | some (_, s1) => (storeGet s1 0).map (fun a => a.children)

/-- The memo entry for the (undefined) argument right after the first
materialization of the derived node of `cm3`, before any snapshot pull. -/
def c8firstMemo : Option (Option MemoEntry) :=
  (getAtom cm3 emptyStore 1).map (fun p => memoGet p.1.memo .undef)

/-! ## Claim C1

The claim states that in a diamond `A -> B, C -> D` a single changed write to
`A` invokes `D`'s listener exactly once.  The source's `notify` (kinfolk.js
lines 244-248) recurses into `atom.children` with no visited set, so `D` is
reached once through `B` and once through `C` and its listener fires twice.
The claim is refuted by the concrete diamond below and the corrected
behaviour (once per path, hence twice in a diamond) is proved in general. -/

/-- C1 (counterexample): in the concrete diamond (cells and selectors built
through `subscribe`, `getSnapshot` and `update` exactly as the engine runs
them), the single write `A := 5` produces the listener trace `[100, 100]`:
`D`'s listener is invoked twice, not exactly once as the claim states. -/
theorem diamond_single_notification_counterexample :
    diamondTrace = some [100, 100] ∧ ([100, 100] : List Nat).count 100 = 2 := by
  constructor
  · rfl
  · rfl

theorem notifyList_nil (s : Store) (f : Nat) : notifyList s f [] = some [] := by
  cases f <;> rfl

theorem notifyList_cons (s : Store) (f : Nat) (id : AtomId) (rest : List AtomId) :
    notifyList s (f+1) (id :: rest) =
      (storeGet s id).bind fun a =>
        (notifyList s f a.children).bind fun t1 =>
          (notifyList s f rest).map fun t2 => a.listeners ++ t1 ++ t2 := rfl

/-- C1 (amended): in any store with diamond-shaped children edges
(`A -> [B, C]`, `B -> [D]`, `C -> [D]`, `D -> []`), `notify` fires listeners
once per path: the trace is `A`'s listeners, then `B`'s, then `D`'s, then
`C`'s, then `D`'s again - a listener registered on `D` alone is invoked
exactly twice per write, not once. -/
theorem diamond_notify_once_per_path (s : Store) (f : Nat) (A B C D : AtomId)
    (a b c d : AtomState)
    (hA : storeGet s A = some a) (hAc : a.children = [B, C])
    (hB : storeGet s B = some b) (hBc : b.children = [D])
    (hC : storeGet s C = some c) (hCc : c.children = [D])
    (hD : storeGet s D = some d) (hDc : d.children = []) :
    notify s (f+4) A =
      some (a.listeners ++ (b.listeners ++ d.listeners ++ (c.listeners ++ d.listeners))) ∧
    (∀ lD, d.listeners.count lD = 1 → lD ∉ a.listeners → lD ∉ b.listeners →
      lD ∉ c.listeners →
      ∃ tr, notify s (f+4) A = some tr ∧ tr.count lD = 2) := by
  have htr : notify s (f+4) A =
      some (a.listeners ++ (b.listeners ++ d.listeners ++ (c.listeners ++ d.listeners))) := by
    show notifyList s (f+4) [A] = _
    simp [notifyList_cons, notifyList_nil, hA, hAc, hB, hBc, hC, hCc, hD, hDc]
  refine ⟨htr, ?_⟩
  intro lD hcnt hna hnb hnc
  refine ⟨_, htr, ?_⟩
  simp [List.count_append, List.count_eq_zero_of_not_mem, hna, hnb, hnc, hcnt]

/-- Concrete diamond store for the witness of the amended C1 theorem. -/
def dstoreW : Store := fun q =>
  if q = 0 then some { children := [1, 2] }
  else if q = 1 then some { children := [3] }
  else if q = 2 then some { children := [3] }
  else if q = 3 then some { children := [], listeners := [100] }
  else none

/-- C1 (witness): the amended theorem applied to the concrete diamond store:
the write's trace is `[100, 100]` and listener `100` is counted twice. -/
theorem diamond_notify_once_per_path_witness :
    notify dstoreW 4 0 = some ([100, 100] : List Nat) ∧
    ([100, 100] : List Nat).count 100 = 2 := by
  have h := diamond_notify_once_per_path dstoreW 0 0 1 2 3
    { children := [1, 2] } { children := [3] } { children := [3] }
    { children := [], listeners := [100] }
    rfl rfl rfl rfl rfl rfl rfl rfl
  exact ⟨h.1, by decide⟩

/-! ## Claim C5: reference-equal writes do not propagate -/

/-- C5: for a materialized cell, `update` always stores the updater's result,
and then: if the result is reference-equal (`jsEq`) to the prior value, no
notification happens at all (the trace of fired listeners is empty and the
only store change is the cell's own `state` field - no memo, edge or
listener of any node is touched); if the result differs by reference, the
cell's listeners and its transitive children are notified synchronously and
the trace is exactly `notify`'s trace. -/
theorem cell_update_propagation (metas : Metas) (f : Nat) (s : Store) (id : AtomId)
    (a : AtomState) (up : Val → Val)
    (hs : storeGet s id = some a) (hc : a.selectorFn = none) :
    (jsEq a.state (up a.state) = true →
       update metas f s id up = .ok (setStore s id { a with state := up a.state }, [])) ∧
    (∀ tr, jsEq a.state (up a.state) = false →
       notify (setStore s id { a with state := up a.state }) f id = some tr →
       update metas f s id up = .ok (setStore s id { a with state := up a.state }, tr)) := by
  constructor
  · intro hje
    simp [update, getAtom_of_get hs, hc, hje]
  · intro tr hje hn
    rw [hc] at hn
    simp [update, getAtom_of_get hs, hc, hje, hn]

/-- Concrete one-cell store (value `1`, one listener `7`) for C5. -/
def c5store : Store := fun q =>
  if q = 0 then some { state := .int 1, listeners := [7] } else none

/-- C5 (witness): writing the same reference produces an empty trace; writing
a different value fires listener `7`. -/
theorem cell_update_propagation_witness :
    update (fun _ => none) 3 c5store 0 (fun v => v) =
      .ok (setStore c5store 0 { state := .int 1, listeners := [7] }, []) ∧
    update (fun _ => none) 3 c5store 0 (fun _ => .int 2) =
      .ok (setStore c5store 0 { state := .int 2, listeners := [7] }, [7]) := by
  constructor
  · exact (cell_update_propagation (fun _ => none) 3 c5store 0
      { state := .int 1, listeners := [7] } (fun v => v) rfl rfl).1 rfl
  · exact (cell_update_propagation (fun _ => none) 3 c5store 0
      { state := .int 1, listeners := [7] } (fun _ => .int 2) rfl rfl).2 [7] rfl rfl

/-! ## Claim C9: writes to derived nodes fail fast -/

/-- C9: `update` against a node defined as a selector throws
`Only atoms can be updated` at the call site, before any mutation: for an
already-materialized selector the store at the throw point is exactly the
incoming store; for a not-yet-materialized selector the only store change is
the materialization itself, whose runtime state is untouched (empty memo, no
edges, no listeners). -/
theorem write_to_derived_fails (metas : Metas) (f : Nat) (s : Store) (id : AtomId)
    (up : Val → Val) :
    (∀ a, storeGet s id = some a → a.selectorFn.isSome = true →
       update metas f s id up = .error ("Only atoms can be updated", s)) ∧
    (∀ fn eqF p, storeGet s id = none → metas id = some (.selMeta fn eqF p) →
       update metas f s id up =
         .error ("Only atoms can be updated", setStore s id (mkSelState fn eqF p)) ∧
       (∀ arg, memoGet (mkSelState fn eqF p).memo arg = none) ∧
       (mkSelState fn eqF p).parents = [] ∧
       (mkSelState fn eqF p).children = [] ∧
       (mkSelState fn eqF p).listeners = []) := by
  constructor
  · intro a hs hsel
    simp [update, getAtom_of_get hs, hsel]
  · intro fn eqF p hs hm
    refine ⟨?_, fun arg => rfl, rfl, rfl, rfl⟩
    simp [update, getAtom, storeGet] at hs ⊢
    simp [hs, hm, mkSelState]

/-- Concrete store with a materialized selector (id 1) for C9. -/
def c9store : Store := fun q =>
  if q = 1 then some { selectorFn := some (.lit (.int 5)), equal := shallowEqual } else none

/-- C9 (witness): updating the materialized selector of `c9store` and the
unmaterialized selector of the `cm3` registry both fail with the assertion
error, leaving runtime state untouched. -/
theorem write_to_derived_fails_witness :
    update (fun _ => none) 3 c9store 1 (fun _ => .int 9) =
      .error ("Only atoms can be updated", c9store) ∧
    update cm3 3 emptyStore 1 (fun _ => .int 9) =
      .error ("Only atoms can be updated",
        setStore emptyStore 1 (mkSelState (.app1 mkObjOf (.read 0 (.lit .undef))) none true)) := by
  constructor
  · exact (write_to_derived_fails (fun _ => none) 3 c9store 1 (fun _ => .int 9)).1
      { selectorFn := some (.lit (.int 5)), equal := shallowEqual } rfl rfl
  · exact ((write_to_derived_fails cm3 3 emptyStore 1 (fun _ => .int 9)).2
      (.app1 mkObjOf (.read 0 (.lit .undef))) none true rfl rfl).1

/-! ## Claim C8

The claim states that the first materialization of a handle is idempotent
(true) and that it eagerly computes a derived node's initial value (false:
`getAtom`, kinfolk.js lines 144-174, creates the selector state with an
empty memo map and computes nothing; the value is first computed by the
first `getSnapshot` pull). -/

/-- C8 (counterexample): right after the first materialization of the derived
node of `cm3` there is no memoized value at all for its argument - the value
does not exist before anything reads it; it is the first snapshot pull that
computes it. -/
theorem getAtom_eager_counterexample :
    c8firstMemo = some none ∧
    (getSnapshot cm3 20 emptyStore 1 .undef).map (fun p => p.1) =
      some (.obj 101 [("x", .int 0)]) := by
  constructor
  · rfl
  · rfl

/-- C8 (amended): first materialization is idempotent - a second `getAtom`
returns the identical state and store - but for a derived node it does not
compute any value: the fresh runtime state has an empty memo map, and the
value is only computed lazily by the first snapshot read. -/
theorem getAtom_idempotent_lazy (metas : Metas) (s : Store) (id : AtomId)
    (a : AtomState) (fn : SelExpr) (eqF : Option (Val → Val → Bool)) (p : Bool) :
    (storeGet s id = some a → getAtom metas s id = some (a, s)) ∧
    (storeGet s id = none → metas id = some (.selMeta fn eqF p) →
       getAtom metas s id =
         some (mkSelState fn eqF p, setStore s id (mkSelState fn eqF p)) ∧
       (∀ arg, memoGet (mkSelState fn eqF p).memo arg = none) ∧
       getAtom metas (setStore s id (mkSelState fn eqF p)) id =
         some (mkSelState fn eqF p, setStore s id (mkSelState fn eqF p))) := by
  constructor
  · intro hs
    exact getAtom_of_get hs
  · intro hs hm
    refine ⟨?_, fun arg => rfl, ?_⟩
    · simp [getAtom, hs, hm]
    · exact getAtom_of_get (storeGet_setStore_self s id (mkSelState fn eqF p))

/-- C8 (witness): the amended theorem applied to the `cm3` registry on the
empty store. -/
theorem getAtom_idempotent_lazy_witness :
    getAtom cm3 emptyStore 1 =
      some (mkSelState (.app1 mkObjOf (.read 0 (.lit .undef))) none true,
        setStore emptyStore 1 (mkSelState (.app1 mkObjOf (.read 0 (.lit .undef))) none true)) ∧
    memoGet (mkSelState (.app1 mkObjOf (.read 0 (.lit .undef))) none true).memo .undef
      = none := by
  have h := (getAtom_idempotent_lazy cm3 emptyStore 1 { } (.app1 mkObjOf (.read 0 (.lit .undef)))
    none true).2 rfl rfl
  exact ⟨h.1, h.2.1 .undef⟩

/-! ## Claim C3

The claim states that a selector created without an explicit `equal` option
compares values by strict identity.  In the source (kinfolk.js line 162)
`atom.equal = atomMeta.equal || shallowEqual`: the default is the
shallow-equality comparator, so distinct-but-shallowly-equal objects are
treated as the same value. -/

/-- C3 (counterexample): the selector of `cm3` (created without `equal`)
recomputes after `counter` changes from 1 to 2, producing the distinct
object 102; yet the snapshot still returns the previous object 101, because
the default comparator deems them equal.  Under the claimed strict-identity
default the read would have returned object 102. -/
theorem default_equality_counterexample :
    c3result = some (.obj 101 [("x", .int 0)]) ∧
    Val.obj 101 [("x", .int 0)] ≠ Val.obj 102 [("x", .int 0)] := by
  constructor
  · rfl
  · simp

/-- C3 (amended): a selector materialized without a custom equality function
gets `shallowEqual` as its equality policy (shallow equality is the default,
strict identity only its special case), and `shallowEqual` does accept two
objects with different identities but `jsEq`-identical field lists. -/
theorem default_equality_is_shallow (metas : Metas) (s : Store) (id : AtomId)
    (fn : SelExpr) (p : Bool) (i j : Nat) (fs : List (String × Val)) :
    (storeGet s id = none → metas id = some (.selMeta fn none p) →
       getAtom metas s id =
         some (mkSelState fn none p, setStore s id (mkSelState fn none p)) ∧
       (mkSelState fn none p).equal = shallowEqual) ∧
    ((fs.map Prod.fst).Nodup → shallowEqual (.obj i fs) (.obj j fs) = true) := by
  constructor
  · intro hs hm
    refine ⟨?_, rfl⟩
    simp [getAtom, hs, hm]
  · intro hnd
    exact shallowEqual_same_fields i j fs hnd

/-- C3 (witness): the amended theorem applied to the `cm3` registry and to
the concrete shallow-equal pair `obj 1 {a: 1}` / `obj 2 {a: 1}`. -/
theorem default_equality_is_shallow_witness :
    (getAtom cm3 emptyStore 1 =
       some (mkSelState (.app1 mkObjOf (.read 0 (.lit .undef))) none true,
         setStore emptyStore 1 (mkSelState (.app1 mkObjOf (.read 0 (.lit .undef))) none true)) ∧
     (mkSelState (.app1 mkObjOf (.read 0 (.lit .undef))) none true).equal = shallowEqual) ∧
    shallowEqual (.obj 1 [("a", .int 1)]) (.obj 2 [("a", .int 1)]) = true := by
  have h := default_equality_is_shallow cm3 emptyStore 1
    (.app1 mkObjOf (.read 0 (.lit .undef))) true 1 2 [("a", .int 1)]
  exact ⟨h.1 rfl rfl, h.2 (by decide)⟩

/-! ## Claim C2: staleness characterization of `isDirty` -/

/-- C2: for a materialized selector, `isDirty` reports stale exactly when
there is no memo entry for the argument (in which case the store is left
untouched and the answer is `true`), or some recorded input's current value,
obtained by recursively reading that input, differs by identity from the
value captured at recording time (`InputsStale`); in particular a memo entry
whose recorded input list is empty is never dirty again - the node is
permanently fresh after its first computation. -/
theorem isDirty_staleness (metas : Metas) (f : Nat) (s : Store) (id : AtomId)
    (arg : Val) (a : AtomState)
    (hs : storeGet s id = some a) (hsel : a.selectorFn.isSome = true) :
    (memoGet a.memo arg = none → isDirty metas (f+1) s id arg = some (true, s)) ∧
    (∀ e b s1, memoGet a.memo arg = some e →
       isDirty metas (f+1) s id arg = some (b, s1) →
       (b = true ↔ InputsStale metas f s e.inputs)) ∧
    (∀ v, memoGet a.memo arg = some ⟨v, []⟩ →
       isDirty metas (f+2) s id arg = some (false, s)) := by
  refine ⟨?_, ?_, ?_⟩
  · intro hmg
    simp [isDirty, step, getAtom_of_get hs, hsel, hmg]
  · intro e b s1 hmg hd
    have hd2 := isDirty_step hd
    have heq : step metas (f+1) (.dirty id arg) s = step metas f (.checkIns e.inputs) s := by
      simp [step, getAtom_of_get hs, hsel, hmg]
    rw [heq] at hd2
    exact checkInputs_true_iff metas f s e.inputs b s1 (step_checkInputs hd2)
  · intro v hmg
    apply step_isDirty
    have heq : step metas (f+1+1) (.dirty id arg) s
        = step metas (f+1) (.checkIns (⟨v, []⟩ : MemoEntry).inputs) s := by
      simp [step, getAtom_of_get hs, hsel, hmg]
    rw [heq]
    simp [step]

/-- Materialized selector with a memo entry recording one input (`counter`
read as `1`) while the cell now holds `2`. -/
def c2store : Store := fun q =>
  if q = 0 then some { state := .int 2 }
  else if q = 1 then some
    { selectorFn := some (.app1 add1 (.read 0 (.lit .undef))),
      equal := shallowEqual,
      memo := fun v => if jsEq v .undef then some ⟨.int 2, [⟨0, .undef, .int 1⟩]⟩ else none,
      parents := [0] }
  else none

/-- Materialized selector whose memo entry records an empty input list. -/
def c2const : Store := fun q =>
  if q = 1 then some
    { selectorFn := some (.lit (.int 5)),
      equal := shallowEqual,
      memo := fun v => if jsEq v .undef then some ⟨.int 5, []⟩ else none }
  else none

/-- C2 (witness): the characterization applied to three concrete selectors -
no memo entry (dirty, store untouched); a changed recorded input (the
staleness equivalence instantiated); an empty recorded input list
(permanently fresh). -/
theorem isDirty_staleness_witness :
    isDirty (fun _ => none) 1 c9store 1 .undef = some (true, c9store) ∧
    (true = true ↔ InputsStale (fun _ => none) 3 c2store
      [⟨0, .undef, .int 1⟩]) ∧
    isDirty (fun _ => none) 2 c2const 1 .undef = some (false, c2const) := by
  refine ⟨?_, ?_, ?_⟩
  · exact (isDirty_staleness (fun _ => none) 0 c9store 1 .undef
      { selectorFn := some (.lit (.int 5)), equal := shallowEqual } rfl rfl).1 rfl
  · exact (isDirty_staleness (fun _ => none) 3 c2store 1 .undef
      { selectorFn := some (.app1 add1 (.read 0 (.lit .undef))),
        equal := shallowEqual,
        memo := fun v => if jsEq v .undef then some ⟨.int 2, [⟨0, .undef, .int 1⟩]⟩ else none,
        parents := [0] } rfl rfl).2.1
      ⟨.int 2, [⟨0, .undef, .int 1⟩]⟩ true c2store rfl rfl
  · exact (isDirty_staleness (fun _ => none) 0 c2const 1 .undef
      { selectorFn := some (.lit (.int 5)), equal := shallowEqual,
        memo := fun v => if jsEq v .undef then some ⟨.int 5, []⟩ else none } rfl rfl).2.2
      (.int 5) rfl

/-! ## Claim C4: equality-gated memo update and reference stability -/

/-- C4: for a materialized selector, when a dirty recomputation yields a raw
value the node's equality function deems equal to the previously memoized
value, the snapshot returns the previous value reference while the memo
entry is overwritten with that old value paired with the new recorded-input
list; and when the memo is not dirty, the snapshot returns the memoized
value with no recomputation and no store change beyond the dirtiness check
itself. -/
theorem snapshot_reference_stability (metas : Metas) (fuel : Nat) (s : Store)
    (id : AtomId) (arg : Val) (a : AtomState)
    (hs : storeGet s id = some a) (hsel : a.selectorFn.isSome = true) :
    (∀ sd vNew ins a2 eOld se,
       isDirty metas fuel s id arg = some (true, sd) →
       evaluateSelectorFn metas fuel sd id arg = some (vNew, ins, se) →
       storeGet se id = some a2 →
       memoGet a2.memo arg = some eOld →
       a2.equal eOld.value vNew = true →
       getSnapshot metas (fuel+1) s id arg =
         some (eOld.value,
           setStore se id { a2 with memo := memoSet a2.memo arg ⟨eOld.value, ins⟩ })) ∧
    (∀ sd a1 e,
       isDirty metas fuel s id arg = some (false, sd) →
       storeGet sd id = some a1 →
       memoGet a1.memo arg = some e →
       getSnapshot metas (fuel+1) s id arg = some (e.value, sd)) := by
  obtain ⟨fn, hfn⟩ := Option.isSome_iff_exists.mp hsel
  constructor
  · intro sd vNew ins a2 eOld se hd hev hga2 hmg heq
    have hd2 := isDirty_step hd
    have hev2 := evaluateSelectorFn_step hev
    apply step_getSnapshot
    simp [step, getAtom_of_get hs, hfn, hd2, hev2, hga2, hmg, heq]
  · intro sd a1 e hd hg1 hmg
    have hd2 := isDirty_step hd
    apply step_getSnapshot
    simp [step, getAtom_of_get hs, hfn, hd2, hg1, hmg]

/-- Store of the reference-stability scenario: `counter = 2` after a write,
while the object selector's memo still holds object 101 recorded against
`counter = 1`. -/
def c4s : Store := fun q =>
  if q = 0 then some { state := .int 2, children := [1] }
  else if q = 1 then some
    { selectorFn := some (.app1 mkObjOf (.read 0 (.lit .undef))),
      equal := shallowEqual,
      memo := fun v =>
        if jsEq v .undef then some ⟨.obj 101 [("x", .int 0)], [⟨0, .undef, .int 1⟩]⟩
        else none,
      parents := [0] }
  else none

/-- The store after re-evaluating the selector of `c4s` (edges rebuilt). -/
def c4se : Store :=
  (evaluateSelectorFn cm3 10 c4s 1 .undef).elim emptyStore (fun pr => pr.2.2)

/-- The selector's runtime state inside `c4se`. -/
def c4a2 : AtomState :=
  (storeGet c4se 1).elim { } (fun a => a)

/-- Fresh-memo store: the memo entry matches the current upstream value. -/
def c4fresh : Store := fun q =>
  if q = 0 then some { state := .int 2, children := [1] }
  else if q = 1 then some
    { selectorFn := some (.app1 mkObjOf (.read 0 (.lit .undef))),
      equal := shallowEqual,
      memo := fun v =>
        if jsEq v .undef then some ⟨.obj 102 [("x", .int 0)], [⟨0, .undef, .int 2⟩]⟩
        else none,
      parents := [0] }
  else none

/-- The memo entry written back on `c4s`: old value, new input baseline. -/
def c4entry : MemoEntry := ⟨.obj 101 [("x", .int 0)], [⟨0, .undef, .int 2⟩]⟩

/-- C4 (witness): on `c4s` the recompute yields the distinct object 102, the
default comparator deems it equal to the memoized object 101, and the
snapshot returns object 101 while the memo baseline moves to the new input
list; on `c4fresh` the snapshot returns the memoized object with no
recomputation. -/
theorem snapshot_reference_stability_witness :
    getSnapshot cm3 11 c4s 1 .undef =
      some (.obj 101 [("x", .int 0)],
        setStore c4se 1 { c4a2 with memo := memoSet c4a2.memo .undef c4entry }) ∧
    getSnapshot cm3 11 c4fresh 1 .undef = some (.obj 102 [("x", .int 0)], c4fresh) := by
  constructor
  · exact (snapshot_reference_stability cm3 10 c4s 1 .undef
      { selectorFn := some (.app1 mkObjOf (.read 0 (.lit .undef))),
        equal := shallowEqual,
        memo := fun v =>
          if jsEq v .undef then some ⟨.obj 101 [("x", .int 0)], [⟨0, .undef, .int 1⟩]⟩
          else none,
        parents := [0] } rfl rfl).1
      c4s (.obj 102 [("x", .int 0)]) [⟨0, .undef, .int 2⟩] c4a2
      ⟨.obj 101 [("x", .int 0)], [⟨0, .undef, .int 1⟩]⟩ c4se
      rfl rfl rfl rfl rfl
  · exact (snapshot_reference_stability cm3 10 c4fresh 1 .undef
      { selectorFn := some (.app1 mkObjOf (.read 0 (.lit .undef))),
        equal := shallowEqual,
        memo := fun v =>
          if jsEq v .undef then some ⟨.obj 102 [("x", .int 0)], [⟨0, .undef, .int 2⟩]⟩
          else none,
        parents := [0] } rfl rfl).2
      c4fresh
      { selectorFn := some (.app1 mkObjOf (.read 0 (.lit .undef))),
        equal := shallowEqual,
        memo := fun v =>
          if jsEq v .undef then some ⟨.obj 102 [("x", .int 0)], [⟨0, .undef, .int 2⟩]⟩
          else none,
        parents := [0] }
      ⟨.obj 102 [("x", .int 0)], [⟨0, .undef, .int 2⟩]⟩
      rfl rfl rfl

/-! ## Claim C6: release removes unreferenced non-persistent selectors,
never cells -/

/-- One unfolding of the `dispose` worklist at a materialized atom. -/
theorem disposeGo_disp_some {s : Store} {id : AtomId} {a : AtomState} (f : Nat)
    (rest : List DTask) (h : storeGet s id = some a) :
    disposeGo (f+1) s (.disp id :: rest) =
      if (a.selectorFn.isSome && a.listeners.isEmpty && a.children.isEmpty) = true then
        disposeGo f (if a.persist = true then s else storeDelete s id)
          ((a.parents.flatMap fun p => [DTask.unlink p id, DTask.disp p]) ++ rest)
      else disposeGo f s rest := by
  simp only [disposeGo, h]

/-- C6: when the last listener of a materialized, non-persistent selector
with no child dependents unregisters, any successful dispose run deletes its
runtime entry from the store; for a cell the unsubscribe path leaves the
store exactly as it was after the listener removal - a cell's entry is never
deleted by release/dispose, whatever its listener set was. -/
theorem release_lifecycle (f : Nat) (s : Store) (id : AtomId) (l : Nat) :
    (∀ a fn, storeGet s id = some a → a.selectorFn = some fn → a.listeners = [l] →
       a.children = [] → a.persist = false →
       ∀ s1, unsubscribe f s id l = some s1 → storeGet s1 id = none) ∧
    (∀ a, storeGet s id = some a → a.selectorFn = none →
       unsubscribe (f+1) s id l =
         some (setStore s id { a with listeners := a.listeners.filter (fun x => x != l) }) ∧
       storeGet (setStore s id { a with listeners := a.listeners.filter (fun x => x != l) }) id
         = some { a with listeners := a.listeners.filter (fun x => x != l) }) := by
  constructor
  · intro a fn hs hsel hls hch hper s1 hu
    have hlist : a.listeners.filter (fun x => x != l) = [] := by
      rw [hls]
      simp
    have hu2 : dispose f (setStore s id { a with listeners := ([] : List Nat) }) id
        = some s1 := by
      have hun : unsubscribe f s id l =
          dispose f (setStore s id { a with listeners := a.listeners.filter (fun x => x != l) }) id := by
        simp [unsubscribe, hs, dispose]
      rw [hun, hlist] at hu
      exact hu
    obtain ⟨g, rfl⟩ : ∃ g, f = g + 1 := by
      cases f with
      | zero => simp [dispose, disposeGo] at hu2
      | succ g => exact ⟨g, rfl⟩
    have hself : storeGet (setStore s id { a with listeners := ([] : List Nat) }) id
        = some { a with listeners := ([] : List Nat) } :=
      storeGet_setStore_self _ _ _
    have hu3 := hu2
    rw [dispose, disposeGo_disp_some g [] hself] at hu3
    have helig : (({ a with listeners := ([] : List Nat) } : AtomState).selectorFn.isSome &&
        ({ a with listeners := ([] : List Nat) } : AtomState).listeners.isEmpty &&
        ({ a with listeners := ([] : List Nat) } : AtomState).children.isEmpty) = true := by
      simp [hsel, hch]
    rw [if_pos helig] at hu3
    rw [if_neg (by simp [hper])] at hu3
    refine disposeGo_absent g _ _ s1 hu3 ?_
    exact storeGet_storeDelete_self _ _
  · intro a hs hsel
    have hun : unsubscribe (f+1) s id l =
        dispose (f+1) (setStore s id { a with listeners := a.listeners.filter (fun x => x != l) }) id := by
      simp [unsubscribe, hs, dispose]
    have hself : storeGet (setStore s id { a with listeners := a.listeners.filter (fun x => x != l) }) id
        = some { a with listeners := a.listeners.filter (fun x => x != l) } :=
      storeGet_setStore_self _ _ _
    constructor
    · rw [hun, dispose, disposeGo_disp_some f [] hself]
      rw [if_neg (by simp [hsel])]
      cases f <;> rfl
    · exact hself

/-- Non-persistent selector with one listener and no children/parents. -/
def c6sel : Store := fun q =>
  if q = 1 then some
    { selectorFn := some (.lit (.int 5)), equal := shallowEqual,
      listeners := [7], persist := false }
  else none

/-- C6 (witness): unsubscribing the last listener deletes the ephemeral
selector entry of `c6sel`; unsubscribing from the cell of `c5store` leaves
the cell's entry in place with the listener removed. -/
theorem release_lifecycle_witness :
    storeGet
      (storeDelete
        (setStore c6sel 1
          { selectorFn := some (.lit (.int 5)), equal := shallowEqual,
            listeners := ([] : List Nat), persist := false }) 1) 1 = none ∧
    unsubscribe 2 c5store 0 7 =
      some (setStore c5store 0 { state := .int 1, listeners := ([] : List Nat) }) := by
  constructor
  · exact (release_lifecycle 2 c6sel 1 7).1
      { selectorFn := some (.lit (.int 5)), equal := shallowEqual,
        listeners := [7], persist := false }
      (.lit (.int 5)) rfl rfl rfl rfl rfl _ rfl
  · exact ((release_lifecycle 1 c5store 0 7).2
      { state := .int 1, listeners := [7] } rfl rfl).1

/-! ## Claim C7

The claim states that `children` is a reference count keyed by occurrence.
In the source `children` is a plain JS `Set` (kinfolk.js line 152): `add` is
idempotent (line 86), and untracking deletes the edge outright (line 76).
The double-read selector below refutes the occurrence-count reading; the
plain-set behaviour is proved in general. -/

/-- C7 (counterexample): the selector of `cm7` reads its parent cell through
two argument instances in a single computation, yet afterwards the parent's
children set holds a single occurrence of the selector - not the two
reference counts the claim predicts. -/
theorem children_refcount_counterexample :
    c7children = some [1] ∧ ([1] : List AtomId).count 1 = 1 := by
  constructor
  · rfl
  · rfl

/-- C7 (amended): the child-edge set is a plain set.  (a) The untrack phase
removes the recomputing node outright from every former parent's children
set (no counts are decremented).  (b) The tracked read adds the edge
idempotently: adding an already-present child leaves the set unchanged,
adding a new one appends it once.  (c) `evaluateSelectorFn` rebuilds the
parent set from scratch: it unlinks all former parents, clears the node's
own parents list, and only then runs the body under the tracking getter. -/
theorem children_plain_set (metas : Metas) (f : Nat) (arg : Val) :
    (∀ (selfId : AtomId) (ps : List AtomId) (s s1 : Store),
       untrackParents s selfId ps = some s1 →
       ∀ p, p ∈ ps → ∀ pa1, storeGet s1 p = some pa1 → selfId ∉ pa1.children) ∧
    (∀ (l : List Nat) (x : Nat),
       (x ∈ l → insertSet l x = l) ∧ (x ∉ l → insertSet l x = l ++ [x])) ∧
    (∀ (id : AtomId) (s s1 : Store) (a a1 : AtomState) (body : SelExpr),
       storeGet s id = some a → a.selectorFn = some body →
       untrackParents s id a.parents = some s1 →
       storeGet s1 id = some a1 →
       evaluateSelectorFn metas (f+1) s id arg =
         (match step metas f (.evalE id arg body) (setStore s1 id { a1 with parents := [] }) with
          | some (.evaled v ins, s2) => some (v, ins, s2)
          | _ => none)) := by
  refine ⟨?_, ?_, ?_⟩
  · intro selfId ps s s1 hu p hp pa1 hpa1
    exact untrackParents_done ps s s1 hu p hp pa1 hpa1
  · intro l x
    exact ⟨fun h => insertSet_of_mem h, fun h => insertSet_of_not_mem h⟩
  · intro id s s1 a a1 body hs hb hu hg1
    simp only [evaluateSelectorFn, step, hs, hb, hu, hg1]

/-- Two-node store for the untrack witness: cell 0 currently lists selector 1
as a child; selector 1 lists cell 0 as its parent. -/
def c7pre : Store := fun q =>
  if q = 0 then some { state := .int 3, children := [1] }
  else if q = 1 then some
    { selectorFn := some (.app2 addV (.read 0 (.lit .undef)) (.read 0 (.lit .undef))),
      equal := shallowEqual, parents := [0] }
  else none

/-- C7 (witness): untracking removes the edge outright on `c7pre`; set-adds
behave idempotently on concrete lists; and the evaluation of the double-read
selector of `c7pre` goes through the untrack-then-clear pipeline. -/
theorem children_plain_set_witness :
    (1 : AtomId) ∉
      ({ state := Val.int 3, children := ([] : List AtomId) } : AtomState).children ∧
    insertSet [5] 5 = [5] ∧
    insertSet [] 5 = [5] ∧
    evaluateSelectorFn cm7 11 c7pre 1 .undef =
      (match step cm7 10
          (.evalE 1 .undef (.app2 addV (.read 0 (.lit .undef)) (.read 0 (.lit .undef))))
          (setStore (setStore c7pre 0 { state := .int 3, children := ([] : List AtomId) }) 1
            { selectorFn := some (.app2 addV (.read 0 (.lit .undef)) (.read 0 (.lit .undef))),
              equal := shallowEqual, parents := ([] : List AtomId) }) with
       | some (.evaled v ins, s2) => some (v, ins, s2)
       | _ => none) := by
  have h := children_plain_set cm7 10 Val.undef
  refine ⟨?_, ?_, ?_, ?_⟩
  · exact h.1 1 [0] c7pre _ rfl 0 (by simp)
      { state := Val.int 3, children := ([] : List AtomId) } rfl
  · exact (h.2.1 [5] 5).1 (by simp)
  · exact (h.2.1 [] 5).2 (by simp)
  · exact h.2.2 1 c7pre _
      { selectorFn := some (.app2 addV (.read 0 (.lit .undef)) (.read 0 (.lit .undef))),
        equal := shallowEqual, parents := [0] }
      { selectorFn := some (.app2 addV (.read 0 (.lit .undef)) (.read 0 (.lit .undef))),
        equal := shallowEqual, parents := [0] }
      (.app2 addV (.read 0 (.lit .undef)) (.read 0 (.lit .undef)))
      rfl rfl rfl rfl

/-! ## Claim C10: what the persistence flag does and does not protect -/

/-- C10: for a materialized persistent selector with no listeners and no
children, the dispose path keeps the node's runtime entry completely intact
(same memo, same non-cleared parents list), while still unlinking the node
from every parent's children set and recursively disposing each parent (the
first conjunct exhibits the worklist: unlink then dispose, per parent, in
order): only the runtime entry itself is protected by the persistence
flag. -/
theorem persistent_dispose_frame (f : Nat) (s : Store) (id : AtomId) (a : AtomState)
    (hs : storeGet s id = some a) (hsel : a.selectorFn.isSome = true)
    (hls : a.listeners = []) (hch : a.children = []) (hper : a.persist = true) :
    (dispose (f+1) s id =
       disposeGo f s (a.parents.flatMap fun p => [DTask.unlink p id, DTask.disp p])) ∧
    (∀ s1, dispose f s id = some s1 → storeGet s1 id = some a) ∧
    (∀ s1 p, dispose f s id = some s1 → p ∈ a.parents →
       ∀ pa1, storeGet s1 p = some pa1 → id ∉ pa1.children) := by
  have helig : (a.selectorFn.isSome && a.listeners.isEmpty && a.children.isEmpty) = true := by
    simp [hsel, hls, hch]
  refine ⟨?_, ?_, ?_⟩
  · rw [dispose, disposeGo_disp_some f [] hs, if_pos helig, if_pos hper]
    rw [List.append_nil]
  · intro s1 hd
    exact disposeGo_retains hper hch f [.disp id] s s1 hd hs
  · intro s1 p hd hp pa1 hpa1
    obtain ⟨g, rfl⟩ : ∃ g, f = g + 1 := by
      cases f with
      | zero => simp [dispose, disposeGo] at hd
      | succ g => exact ⟨g, rfl⟩
    have hd2 : disposeGo g s (a.parents.flatMap fun p => [DTask.unlink p id, DTask.disp p])
        = some s1 := by
      rw [dispose, disposeGo_disp_some g [] hs, if_pos helig, if_pos hper] at hd
      rw [List.append_nil] at hd
      exact hd
    refine disposeGo_unlink_done g _ s s1 hd2 ?_ pa1 hpa1
    rw [List.mem_flatMap]
    exact ⟨p, hp, by simp⟩

/-- Persistent selector (id 1) with a parent cell (id 0) for the C10
scenario. -/
def c10s : Store := fun q =>
  if q = 0 then some { state := .int 1, children := [1] }
  else if q = 1 then some
    { selectorFn := some (.app1 add1 (.read 0 (.lit .undef))),
      equal := shallowEqual, parents := [0], persist := true }
  else none

/-- C10 (witness): disposing the persistent selector of `c10s` keeps its
entry (parents list still `[0]`), removes it from the cell's children set,
and the first step of the run is exactly the unlink-then-dispose worklist
over its parents. -/
theorem persistent_dispose_frame_witness :
    dispose 3 c10s 1 = disposeGo 2 c10s [DTask.unlink 0 1, DTask.disp 0] ∧
    storeGet (setStore c10s 0 { state := .int 1, children := ([] : List AtomId) }) 1 =
      some { selectorFn := some (.app1 add1 (.read 0 (.lit .undef))),
             equal := shallowEqual, parents := [0], persist := true } ∧
    (1 : AtomId) ∉
      ({ state := Val.int 1, children := ([] : List AtomId) } : AtomState).children := by
  have h := persistent_dispose_frame 2 c10s 1
    { selectorFn := some (.app1 add1 (.read 0 (.lit .undef))),
      equal := shallowEqual, parents := [0], persist := true }
    rfl rfl rfl rfl rfl
  have h3 := persistent_dispose_frame 3 c10s 1
    { selectorFn := some (.app1 add1 (.read 0 (.lit .undef))),
      equal := shallowEqual, parents := [0], persist := true }
    rfl rfl rfl rfl rfl
  refine ⟨h.1, ?_, ?_⟩
  · exact h3.2.1 _ rfl
  · exact h3.2.2 _ 0 rfl (by simp)
      { state := Val.int 1, children := ([] : List AtomId) } rfl

end Kinfolk
